import Mathlib

/-!
Verification of the `ai-models` core against its specification.

The definitions below are a shallow embedding of the Python sources:

* `src/ai_models/model.py` — `ArchiveCollector`, `Model._datetimes`,
  `Model.datetimes` (time normalization), `Model._requests_unfiltered`;
* `src/ai_models/inputs/compute.py` — `make_z_from_gh`;
* `src/ai_models/inputs/opendata.py` — `OpenDataInput._check`;
* `src/ai_models/inputs/transform.py` — `NewMetadataField.metadata`;
* `src/ai_models/outputs/__init__.py` — `HindcastReLabel.write`;
* `src/ai_models/remote/api.py` — the poll loop of `RemoteAPI.run`.

Python `int` is modelled as `Int` (with `Int.ediv`/`Int.emod` for `//`/`%`,
which agree with Python's floor semantics for positive divisors), Python
dicts as ordered association lists with Python's `update`/`pop` semantics,
Python sets of strings as duplicate-free lists in insertion order, and
exceptions (`ValueError`, `AssertionError`, `sys.exit`) as `Except` values.
-/

namespace AiModels

/-! ## Calendar arithmetic

Python `datetime.datetime` values are modelled as a count of minutes since
1970-01-01T00:00, with the standard era-based Gregorian conversions between
day counts and civil (year, month, day) triples, so that `date.year`,
`date.month`, `date.day`, `date.hour` and `date + timedelta(hours=lag)` are
all expressible. -/

/-- Civil (year, month, day) of a day count relative to 1970-01-01. -/
def civilFromDays (z : Int) : Int × Int × Int :=
  let z := z + 719468
  let era := z.ediv 146097
  let doe := z - era * 146097
  let yoe := (doe - doe.ediv 1460 + doe.ediv 36524 - doe.ediv 146096).ediv 365
  let y := yoe + era * 400
  let doy := doe - (365 * yoe + yoe.ediv 4 - yoe.ediv 100)
  let mp := (5 * doy + 2).ediv 153
  let d := doy - (153 * mp + 2).ediv 5 + 1
  let m := mp + (if mp < 10 then 3 else -9)
  (y + (if m ≤ 2 then 1 else 0), m, d)

/-- Day count relative to 1970-01-01 of a civil (year, month, day). -/
def daysFromCivil (y m d : Int) : Int :=
  let y := y - (if m ≤ 2 then 1 else 0)
  let era := y.ediv 400
  let yoe := y - era * 400
  let doy := (153 * (m + (if 2 < m then -3 else 9)) + 2).ediv 5 + d - 1
  let doe := yoe * 365 + yoe.ediv 4 - yoe.ediv 100 + doy
  era * 146097 + doe - 719468

/-- A Python `datetime.datetime` (UTC, minute resolution). -/
structure PyDateTime where
  minutes : Int
  deriving Repr, DecidableEq

/-- `datetime.datetime(y, m, d, h, mi)`. -/
def PyDateTime.make (y m d h mi : Int) : PyDateTime :=
  ⟨daysFromCivil y m d * 1440 + h * 60 + mi⟩

/-- `t + datetime.timedelta(hours=h)`. -/
def PyDateTime.addHours (t : PyDateTime) (h : Int) : PyDateTime :=
  ⟨t.minutes + h * 60⟩

/-- `date.year * 10000 + date.month * 100 + date.day`, as computed in
`Model._datetimes` (model.py line 275). -/
def PyDateTime.ymd (t : PyDateTime) : Int :=
  let c := civilFromDays (t.minutes.ediv 1440)
  c.1 * 10000 + c.2.1 * 100 + c.2.2

/-- `date.hour` (an integer in 0..23). -/
def PyDateTime.hour (t : PyDateTime) : Int :=
  (t.minutes.ediv 60).emod 24

/-! ## Time normalization and date/lag expansion
(`Model.datetimes` / `Model._datetimes`, model.py lines 252-312) -/

/-- `if time < 100: time *= 100` (model.py lines 261-262 and 300-301). -/
def normalizeTime (t : Int) : Int :=
  if t < 100 then t * 100 else t

/-- The admissible normalized times, `(0, 600, 1200, 1800)`
(model.py lines 263 and 303). -/
def validTimes : List Int := [0, 600, 1200, 1800]

/-- `Model.datetimes` time handling: normalize `self.time` and fail
(AssertionError) unless the result is one of `validTimes`
(model.py lines 298-303). -/
def checkTime (t : Int) : Except String Int :=
  let t := normalizeTime t
  if validTimes.contains t then .ok t else .error "time not in (0, 600, 1200, 1800)"

/-- `Model._datetimes(dates)` (model.py lines 252-280): after asserting the
normalized `self.time` is admissible, expand every base date by every lag
offset (`self.lagged`, defaulting to `[0]` when falsy) and emit
`(YYYYMMDD, hour)` pairs in nested-loop order.  The function's initial
normalization of `self.date` (lines 253-257) is dead code — the local
`date` is reassigned inside the loop before use — so it is omitted here. -/
def Model.datetimesImpl (time : Int) (lagged : List Int) (dates : List PyDateTime) :
    Except String (List (Int × Int)) := do
  let _ ← checkTime time
  let lagged := if lagged.isEmpty then [0] else lagged
  return dates.flatMap fun basedate =>
    lagged.map fun lag =>
      ((basedate.addHours lag).ymd, (basedate.addHours lag).hour)

/-- Auxiliary: a nested loop over two lists is the map over their product. -/
theorem flatMap_map_eq_product_map {α β γ : Type} (l₁ : List α) (l₂ : List β) (f : α → β → γ) :
    (l₁.flatMap fun a => l₂.map fun b => f a b) = (l₁ ×ˢ l₂).map fun p => f p.1 p.2 := by
  induction l₁ with
  | nil => simp
  | cons a t ih =>
      simp [List.flatMap_cons, List.product_cons, ih, List.map_map, Function.comp]

/-- Claim C4 (amended): for an admissible configured time, `Model._datetimes`
returns an ordered sequence of `(YYYYMMDD, HH)` pairs — the second component
is the hour 0..23, not HHMM — whose length is
`len(dates) * max(1, len(lag_offsets))`, in the input order of
(base date, lag) pairs (the list product), each pair being the base
date-time shifted by the lag in hours; duplicates are preserved, not
deduplicated, since the output is exactly the map over the product list. -/
theorem datetimes_expansion (time : Int) (lagged : List Int) (dates : List PyDateTime)
    (h : validTimes.contains (normalizeTime time) = true) :
    ∃ out, Model.datetimesImpl time lagged dates = .ok out ∧
      out.length = dates.length * max 1 lagged.length ∧
      out = (dates ×ˢ (if lagged.isEmpty then [0] else lagged)).map
        (fun p => ((p.1.addHours p.2).ymd, (p.1.addHours p.2).hour)) := by
  have h' : normalizeTime time ∈ validTimes := by simpa using h
  refine ⟨(dates ×ˢ (if lagged.isEmpty then [0] else lagged)).map
      (fun p => ((p.1.addHours p.2).ymd, (p.1.addHours p.2).hour)), ?_, ?_, rfl⟩
  · simp [Model.datetimesImpl, checkTime, h', flatMap_map_eq_product_map]
  · simp only [List.length_map, List.length_product]
    cases lagged with
    | nil => simp
    | cons a t =>
        rw [Nat.max_eq_right (List.length_cons a t ▸ Nat.succ_le_succ (Nat.zero_le t.length))]
        simp

/-- Witness for `datetimes_expansion` at a concrete input. -/
theorem datetimes_expansion_witness :
    ∃ out, Model.datetimesImpl 0 [] [PyDateTime.make 2020 1 1 0 0] = .ok out ∧
      out.length = [PyDateTime.make 2020 1 1 0 0].length * max 1 ([] : List Int).length ∧
      out = ([PyDateTime.make 2020 1 1 0 0] ×ˢ (if ([] : List Int).isEmpty then [0] else [])).map
        (fun p => ((p.1.addHours p.2).ymd, (p.1.addHours p.2).hour)) :=
  datetimes_expansion 0 [] [PyDateTime.make 2020 1 1 0 0] (by decide)

/-- Counterexample for claim C4 as stated: the second component of each
emitted pair is the hour `HH` (here `6`), not `HHMM` (which would be `600`)
— `Model._datetimes` on the single base date 2023-01-01T06:00 with no lag
offsets returns `[(20230101, 6)]`. -/
theorem datetimes_hhmm_counterexample :
    Model.datetimesImpl 600 [] [PyDateTime.make 2023 1 1 6 0] = .ok [(20230101, 6)] ∧
    (6 : Int) ≠ 600 := by
  exact ⟨rfl, by decide⟩

/-- Claim C5 (confirmed): time normalization multiplies any value under 100
by 100 (12 becomes 1200, 600 stays 600), and the check fails exactly when
the normalized value is not one of 0, 600, 1200, 1800 (so 700 fails). -/
theorem time_normalization_spec :
    (∀ t : Int, t < 100 → normalizeTime t = t * 100) ∧
    (∀ t : Int, ¬ t < 100 → normalizeTime t = t) ∧
    normalizeTime 12 = 1200 ∧ normalizeTime 600 = 600 ∧
    (∀ t : Int, (checkTime t).isOk = false ↔ normalizeTime t ∉ validTimes) ∧
    (checkTime 700).isOk = false := by
  refine ⟨fun t ht => by simp [normalizeTime, ht], fun t ht => by simp [normalizeTime, ht],
    by decide, by decide, fun t => ?_, by decide⟩
  by_cases hmem : normalizeTime t ∈ validTimes
  · simp [checkTime, hmem, Except.isOk, Except.toBool]
  · simp [checkTime, hmem, Except.isOk, Except.toBool]

/-- Witness for `time_normalization_spec`, discharging its hypotheses at
concrete inputs. -/
theorem time_normalization_spec_witness :
    normalizeTime 12 = 12 * 100 ∧ normalizeTime 600 = 600 ∧
    ((checkTime 700).isOk = false ↔ normalizeTime 700 ∉ validTimes) :=
  ⟨time_normalization_spec.1 12 (by decide),
   time_normalization_spec.2.1 600 (by decide),
   time_normalization_spec.2.2.2.2.1 700⟩

/-! ## ArchiveCollector (model.py lines 44-57)

`self.request` is a `defaultdict(set)`; it is modelled as an ordered
association list from key to the list of distinct values in insertion
order, and `set.add` as a membership-tested append. -/

/-- `ArchiveCollector.UNIQUE` (model.py line 45). -/
def UNIQUE : List String :=
  ["date", "hdate", "time", "referenceDate", "type", "stream", "expver"]

/-- Python `set.add`: insert a string if not already present. -/
def setInsert (s : List String) (v : String) : List String :=
  if v ∈ s then s else s ++ [v]

/-- `self.request[k]` of a `defaultdict(set)`: the value set for `k`,
defaulting to the empty set. -/
def getSet : List (String × List String) → String → List String
  | [], _ => []
  | p :: t, k => if p.1 = k then p.2 else getSet t k

/-- Store a value set under a key, replacing the first binding in place or
appending a new one (Python dict assignment). -/
def putSet : List (String × List String) → String → List String → List (String × List String)
  | [], k, s => [(k, s)]
  | p :: t, k, s => if p.1 = k then (k, s) :: t else p :: putSet t k s

/-- `self.request[k].add(str(v))` (model.py line 54). -/
def addValue (req : List (String × List String)) (k v : String) :
    List (String × List String) :=
  putSet req k (setInsert (getSet req k) v)

/-- The `ArchiveCollector` state: expected count and per-key value sets. -/
structure ArchiveCollector where
  expect : Int
  request : List (String × List String)
  deriving Repr, DecidableEq

/-- The payload of the `ValueError` raised on a unique-key conflict
(model.py line 57): it names the field, the key, and the value set
`self.request[k]` holding the conflicting values. -/
structure ArchiveError where
  efield : List (String × String)
  ekey : String
  evalues : List String
  deriving Repr, DecidableEq

/-- The `for k, v in field.items()` loop of `ArchiveCollector.add`
(model.py lines 53-57).  On a unique-key conflict the raised error also
carries the collector as the exception leaves it (Python does not roll the
object back). -/
def addItems (field : List (String × String)) :
    ArchiveCollector → List (String × String) →
      Except (ArchiveError × ArchiveCollector) ArchiveCollector
  | c, [] => .ok c
  | c, (k, v) :: rest =>
      if k ∈ UNIQUE ∧ 1 < (getSet (addValue c.request k v) k).length then
        .error (⟨field, k, getSet (addValue c.request k v) k⟩,
                { c with request := addValue c.request k v })
      else
        addItems field { c with request := addValue c.request k v } rest

/-- `ArchiveCollector.add(field)` (model.py lines 51-57): increment
`self.expect`, then record every item of the field. -/
def ArchiveCollector.add (c : ArchiveCollector) (field : List (String × String)) :
    Except (ArchiveError × ArchiveCollector) ArchiveCollector :=
  addItems field { c with expect := c.expect + 1 } field

theorem getSet_putSet_self (req : List (String × List String)) (k : String) (s : List String) :
    getSet (putSet req k s) k = s := by
  induction req with
  | nil => simp [putSet, getSet]
  | cons p t ih =>
      by_cases h : p.1 = k
      · simp [putSet, getSet, h]
      · simp [putSet, getSet, h, ih]

theorem getSet_putSet_ne (req : List (String × List String)) (k k' : String) (s : List String)
    (h : k' ≠ k) : getSet (putSet req k s) k' = getSet req k' := by
  induction req with
  | nil => simp [putSet, getSet, Ne.symm h]
  | cons p t ih =>
      by_cases hp : p.1 = k
      · simp [putSet, getSet, hp, Ne.symm h]
      · by_cases hp' : p.1 = k'
        · simp [putSet, getSet, hp, hp', h]
        · simp [putSet, getSet, hp, hp', ih]

theorem getSet_addValue_self (req : List (String × List String)) (k v : String) :
    getSet (addValue req k v) k = setInsert (getSet req k) v :=
  getSet_putSet_self req k _

theorem getSet_addValue_ne (req : List (String × List String)) (k k' v : String)
    (h : k' ≠ k) : getSet (addValue req k v) k' = getSet req k' :=
  getSet_putSet_ne req k k' _ h

/-- Behaviour of the item loop of `ArchiveCollector.add` on a field with
duplicate-free keys, given the collector invariant: on success, no unique
key of the items carried a value different from one already recorded, and
`expect` is untouched by the loop; on failure, the error names the field,
a unique key, and exactly the pair of conflicting values (the recorded one
and the new one), both of which are left in the collector's state. -/
theorem addItems_spec (field : List (String × String)) (items : List (String × String)) :
    ∀ (c : ArchiveCollector),
      (items.map Prod.fst).Nodup →
      (∀ k ∈ UNIQUE, (getSet c.request k).length ≤ 1) →
      (match addItems field c items with
       | .ok cOk =>
           (∀ k v, (k, v) ∈ items → k ∈ UNIQUE → ∀ w ∈ getSet c.request k, w = v) ∧
           cOk.expect = c.expect
       | .error (e, c') =>
           e.efield = field ∧ e.ekey ∈ UNIQUE ∧ c'.expect = c.expect ∧
           ∃ v old, (e.ekey, v) ∈ items ∧ old ∈ getSet c.request e.ekey ∧ old ≠ v ∧
             e.evalues = [old, v] ∧ getSet c'.request e.ekey = [old, v]) := by
  induction items with
  | nil =>
      intro c _ _
      simp [addItems]
  | cons kv rest ih =>
      obtain ⟨k, v⟩ := kv
      intro c hnd hwf
      simp only [List.map_cons, List.nodup_cons] at hnd
      obtain ⟨hknotin, hndrest⟩ := hnd
      have hbefore := getSet_addValue_self c.request k v
      by_cases herr : k ∈ UNIQUE ∧ 1 < (getSet (addValue c.request k v) k).length
      · -- the head item raises the conflict
        have hred : addItems field c ((k, v) :: rest)
            = .error (⟨field, k, getSet (addValue c.request k v) k⟩,
                      { c with request := addValue c.request k v }) := by
          simp only [addItems, if_pos herr]
        rw [hred]
        have hku : k ∈ UNIQUE := herr.1
        have hlen1 : (getSet c.request k).length ≤ 1 := hwf k hku
        have hvnot : v ∉ getSet c.request k := by
          intro hv
          have heq : setInsert (getSet c.request k) v = getSet c.request k := by
            simp [setInsert, hv]
          rw [hbefore, heq] at herr
          exact absurd herr.2 (by omega)
        have hins : getSet (addValue c.request k v) k = getSet c.request k ++ [v] := by
          rw [hbefore]
          simp [setInsert, hvnot]
        have hlenbefore : (getSet c.request k).length = 1 := by
          have h2 := herr.2
          rw [hins] at h2
          simp at h2
          omega
        obtain ⟨old, hold⟩ := List.length_eq_one.mp hlenbefore
        refine ⟨rfl, hku, rfl, v, old, List.mem_cons_self _ _, ?_, ?_, ?_, ?_⟩
        · rw [hold]
          exact List.mem_singleton_self old
        · intro holdv
          apply hvnot
          rw [hold, holdv]
          exact List.mem_singleton_self v
        · rw [hins, hold]
          rfl
        · rw [hins, hold]
          rfl
      · -- no conflict at the head: continue with the mutated collector
        have hred : addItems field c ((k, v) :: rest)
            = addItems field { c with request := addValue c.request k v } rest := by
          simp only [addItems, if_neg herr]
        rw [hred]
        have hwf' : ∀ k' ∈ UNIQUE,
            (getSet (addValue c.request k v) k').length ≤ 1 := by
          intro k' hk'
          by_cases hkk : k' = k
          · subst hkk
            have hle : ¬ 1 < (getSet (addValue c.request k' v) k').length :=
              fun h2 => herr ⟨hk', h2⟩
            omega
          · rw [getSet_addValue_ne c.request k k' v hkk]
            exact hwf k' hk'
        have hrec := ih { c with request := addValue c.request k v } hndrest hwf'
        cases hres : addItems field { c with request := addValue c.request k v } rest with
        | ok cOk =>
            rw [hres] at hrec
            refine ⟨?_, hrec.2⟩
            intro k₀ v₀ hmem hk₀u w hw
            rcases List.mem_cons.mp hmem with hhead | htail
            · -- the head pair: every previously recorded value equals v
              have hk0 : k₀ = k := (Prod.ext_iff.mp hhead).1
              have hv0 : v₀ = v := (Prod.ext_iff.mp hhead).2
              subst hk0
              subst hv0
              have hle : (getSet (addValue c.request k₀ v₀) k₀).length ≤ 1 := by
                have hnlt : ¬ 1 < (getSet (addValue c.request k₀ v₀) k₀).length :=
                  fun h2 => herr ⟨hk₀u, h2⟩
                omega
              by_cases hvin : v₀ ∈ getSet c.request k₀
              · have h1 : (getSet c.request k₀).length ≤ 1 := hwf k₀ hk₀u
                have hsingle : getSet c.request k₀ = [v₀] := by
                  cases hgs : getSet c.request k₀ with
                  | nil => simp [hgs] at hvin
                  | cons a t =>
                      rw [hgs] at hvin h1
                      simp at h1
                      subst h1
                      simp at hvin
                      rw [hvin]
                rw [hsingle] at hw
                simpa using hw
              · have hins : getSet (addValue c.request k₀ v₀) k₀
                    = getSet c.request k₀ ++ [v₀] := by
                  rw [getSet_addValue_self]
                  simp [setInsert, hvin]
                rw [hins] at hle
                simp at hle
                rw [hle] at hw
                simp at hw
            · -- a tail pair: its key is untouched by the head insertion
              have hne : k₀ ≠ k := by
                intro hkk
                subst hkk
                exact hknotin (List.mem_map_of_mem Prod.fst htail)
              have hrec1 := hrec.1 k₀ v₀ htail hk₀u w
              rw [getSet_addValue_ne c.request k k₀ v hne] at hrec1
              exact hrec1 hw
        | error ec =>
            obtain ⟨e, c'⟩ := ec
            rw [hres] at hrec
            obtain ⟨hef, heku, hexp, v₀, old, hmem, holdin, holdne, hev, hcs⟩ := hrec
            have hne : e.ekey ≠ k := by
              intro hkk
              apply hknotin
              rw [← hkk]
              exact List.mem_map_of_mem Prod.fst hmem
            refine ⟨hef, heku, hexp, v₀, old, List.mem_cons_of_mem _ hmem, ?_, holdne, hev, hcs⟩
            rw [← getSet_addValue_ne c.request k e.ekey v hne]
            exact holdin

/-- Claim C1 (confirmed): on a collector whose unique keys each hold at most
one recorded value, `ArchiveCollector.add` with a field (duplicate-free
keys) raises a `ValueError` exactly when some unique key of the field
carries a string value different from one already recorded for that path;
the error names the field, the key, and the conflicting values; calls whose
unique-key values match what was recorded, or that differ only in
non-unique keys, succeed. -/
theorem archive_add_unique_key (c : ArchiveCollector) (field : List (String × String))
    (hnd : (field.map Prod.fst).Nodup)
    (hwf : ∀ k ∈ UNIQUE, (getSet c.request k).length ≤ 1) :
    (∀ e c', c.add field = .error (e, c') →
        e.efield = field ∧ e.ekey ∈ UNIQUE ∧
        ∃ v old, (e.ekey, v) ∈ field ∧ old ∈ getSet c.request e.ekey ∧ old ≠ v ∧
          e.evalues = [old, v]) ∧
    ((∃ cOk, c.add field = .ok cOk) ↔
      ∀ k v, (k, v) ∈ field → k ∈ UNIQUE → ∀ w ∈ getSet c.request k, w = v) := by
  have hspec := addItems_spec field field { c with expect := c.expect + 1 } hnd hwf
  constructor
  · intro e c' herr
    have hres : addItems field { c with expect := c.expect + 1 } field = .error (e, c') := herr
    rw [hres] at hspec
    obtain ⟨hef, heku, _, v, old, hmem, holdin, hne, hev, _⟩ := hspec
    exact ⟨hef, heku, v, old, hmem, holdin, hne, hev⟩
  · constructor
    · rintro ⟨cOk, hok⟩ k v hmem hku w hw
      have hres : addItems field { c with expect := c.expect + 1 } field = .ok cOk := hok
      rw [hres] at hspec
      exact hspec.1 k v hmem hku w hw
    · intro hnoconf
      cases hres : addItems field { c with expect := c.expect + 1 } field with
      | ok cOk => exact ⟨cOk, hres⟩
      | error ec =>
          obtain ⟨e, c'⟩ := ec
          rw [hres] at hspec
          obtain ⟨_, heku, _, v, old, hmem, holdin, hne, _, _⟩ := hspec
          exact absurd (hnoconf e.ekey v hmem heku old holdin) hne

/-- Witness for `archive_add_unique_key`: a collector that has recorded
`date = 20230101` receiving a field with `date = 20230102`. -/
theorem archive_add_unique_key_witness :
    (∀ e c', (⟨1, [("date", ["20230101"])]⟩ : ArchiveCollector).add
        [("date", "20230102"), ("param", "2t")] = .error (e, c') →
        e.efield = [("date", "20230102"), ("param", "2t")] ∧ e.ekey ∈ UNIQUE ∧
        ∃ v old, (e.ekey, v) ∈ [("date", "20230102"), ("param", "2t")] ∧
          old ∈ getSet [("date", ["20230101"])] e.ekey ∧ old ≠ v ∧
          e.evalues = [old, v]) ∧
    ((∃ cOk, (⟨1, [("date", ["20230101"])]⟩ : ArchiveCollector).add
        [("date", "20230102"), ("param", "2t")] = .ok cOk) ↔
      ∀ k v, (k, v) ∈ [("date", "20230102"), ("param", "2t")] → k ∈ UNIQUE →
        ∀ w ∈ getSet [("date", ["20230101"])] k, w = v) :=
  archive_add_unique_key ⟨1, [("date", ["20230101"])]⟩
    [("date", "20230102"), ("param", "2t")] (by decide) (by decide)

/-- Claim C9 (confirmed): `ArchiveCollector.add` is not atomic on error —
when the unique-key conflict is raised, the expected count has already been
incremented and the conflicting new value has been inserted into the key's
value set, so the reported set holds both the old and the new value and the
state carried out of the call is not rolled back. -/
theorem archive_add_not_atomic (c : ArchiveCollector) (field : List (String × String))
    (hnd : (field.map Prod.fst).Nodup)
    (hwf : ∀ k ∈ UNIQUE, (getSet c.request k).length ≤ 1) :
    ∀ e c', c.add field = .error (e, c') →
      c'.expect = c.expect + 1 ∧
      ∃ v old, (e.ekey, v) ∈ field ∧ old ∈ getSet c.request e.ekey ∧ old ≠ v ∧
        getSet c'.request e.ekey = [old, v] ∧ e.evalues = [old, v] := by
  intro e c' herr
  have hspec := addItems_spec field field { c with expect := c.expect + 1 } hnd hwf
  have hres : addItems field { c with expect := c.expect + 1 } field = .error (e, c') := herr
  rw [hres] at hspec
  obtain ⟨_, _, hexp, v, old, hmem, holdin, hne, hev, hcs⟩ := hspec
  exact ⟨hexp, v, old, hmem, holdin, hne, hcs, hev⟩

/-- Witness for `archive_add_not_atomic` at the same conflicting input: the
error state has `expect = 2` and both date values recorded. -/
theorem archive_add_not_atomic_witness :
    (⟨2, [("date", ["20230101", "20230102"])]⟩ : ArchiveCollector).expect
        = (⟨1, [("date", ["20230101"])]⟩ : ArchiveCollector).expect + 1 ∧
    ∃ v old,
      ("date", v) ∈ [("date", "20230102"), ("param", "2t")] ∧
      old ∈ getSet [("date", ["20230101"])] "date" ∧ old ≠ v ∧
      getSet [("date", ["20230101", "20230102"])] "date" = [old, v] ∧
      (["20230101", "20230102"] : List String) = [old, v] :=
  archive_add_not_atomic ⟨1, [("date", ["20230101"])]⟩
    [("date", "20230102"), ("param", "2t")] (by decide) (by decide)
    ⟨[("date", "20230102"), ("param", "2t")], "date", ["20230101", "20230102"]⟩
    ⟨2, [("date", ["20230101", "20230102"])]⟩ rfl

/-! ## Unit conversion `make_z_from_gh` (inputs/compute.py lines 20-39) -/

/-- Standard gravity `G = 9.80665` (compute.py line 17), as a rational. -/
def G : ℚ := 980665 / 100000

/-- A scientific field for the conversion stage: the `param` metadata and
the numeric payload (`to_numpy()`), with real values modelled as
rationals. -/
structure Field where
  param : String
  values : List ℚ
  deriving Repr, DecidableEq

/-- `make_z_from_gh(ds)` (compute.py lines 20-39): every field whose
`param` is exactly `"gh"` is written out with values multiplied by `G` and
re-tagged `param="z"`; every other field is appended to `other` unchanged.
The result is `FieldArray(other) + from_source(file)`, i.e. the passthrough
fields followed by the converted ones, each group in input order. -/
def make_z_from_gh (ds : List Field) : List Field :=
  (ds.filter fun f => !(f.param == "gh")) ++
    (ds.filter fun f => f.param == "gh").map fun f => ⟨"z", f.values.map (· * G)⟩

/-- Claim C6 (confirmed): after the gh-to-z stage no field tagged `gh`
remains; every input field tagged `gh` yields an output field tagged `z`
with the original values multiplied by 9.80665; every other input field is
passed through unchanged; and nothing else appears in the output. -/
theorem make_z_from_gh_spec (ds : List Field) :
    (∀ f ∈ make_z_from_gh ds, f.param ≠ "gh") ∧
    (∀ f ∈ ds, f.param = "gh" →
        (⟨"z", f.values.map (· * G)⟩ : Field) ∈ make_z_from_gh ds) ∧
    (∀ f ∈ ds, f.param ≠ "gh" → f ∈ make_z_from_gh ds) ∧
    (∀ f ∈ make_z_from_gh ds, f ∈ ds ∨
        ∃ g ∈ ds, g.param = "gh" ∧ f.param = "z" ∧ f.values = g.values.map (· * G)) := by
  refine ⟨?_, ?_, ?_, ?_⟩
  · intro f hf
    rcases List.mem_append.mp hf with hother | hconv
    · have := (List.mem_filter.mp hother).2
      simpa using this
    · obtain ⟨g, _, hgf⟩ := List.mem_map.mp hconv
      rw [← hgf]
      simp
  · intro f hf hgh
    apply List.mem_append.mpr
    right
    apply List.mem_map.mpr
    refine ⟨f, List.mem_filter.mpr ⟨hf, by simp [hgh]⟩, rfl⟩
  · intro f hf hne
    apply List.mem_append.mpr
    left
    exact List.mem_filter.mpr ⟨hf, by simpa using hne⟩
  · intro f hf
    rcases List.mem_append.mp hf with hother | hconv
    · exact Or.inl (List.mem_filter.mp hother).1
    · obtain ⟨g, hg, hgf⟩ := List.mem_map.mp hconv
      refine Or.inr ⟨g, (List.mem_filter.mp hg).1, by simpa using (List.mem_filter.mp hg).2,
        ?_, ?_⟩
      · rw [← hgf]
      · rw [← hgf]

/-! ## Metadata override wrapper (inputs/transform.py lines 41-49) -/

/-- Result of `NewMetadataField.metadata(*args, **kwargs)`: either a
patched value is returned directly, or the whole call is delegated
verbatim to the inner field (`self._field.metadata(*args, **kwargs)`). -/
inductive MetadataResult where
  | patched (v : String)
  | delegated (args : List String) (kwargs : List (String × String))
  deriving Repr, DecidableEq

/-- `args[0] in self._metadata` / `self._metadata[args[0]]`: lookup in the
override patch `self._metadata`. -/
def lookupPatch (patch : List (String × String)) (k : String) : Option String :=
  (patch.find? fun p => p.1 == k).map Prod.snd

/-- `NewMetadataField.metadata` (transform.py lines 46-49): when called
with exactly one positional key that is in the patch, return the patched
value; in every other case delegate the whole call — positional and
keyword arguments — to the inner field. -/
def NewMetadataField.metadata (patch : List (String × String))
    (args : List String) (kwargs : List (String × String)) : MetadataResult :=
  match args with
  | [k] =>
      match lookupPatch patch k with
      | some v => .patched v
      | none => .delegated [k] kwargs
  | _ => .delegated args kwargs

/-- Claim C10 (amended): the override applies exactly when the call has one
positional key argument that is in the patch set — keyword arguments do not
disable it; calls with an unpatched single key, or with zero or several
positional keys, delegate entirely to the inner field. -/
theorem metadata_override_spec (patch : List (String × String))
    (args : List String) (kwargs : List (String × String)) :
    (∀ k v, args = [k] → lookupPatch patch k = some v →
        NewMetadataField.metadata patch args kwargs = .patched v) ∧
    (∀ k, args = [k] → lookupPatch patch k = none →
        NewMetadataField.metadata patch args kwargs = .delegated args kwargs) ∧
    (args.length ≠ 1 →
        NewMetadataField.metadata patch args kwargs = .delegated args kwargs) := by
  refine ⟨?_, ?_, ?_⟩
  · intro k v hargs hpatch
    subst hargs
    simp [NewMetadataField.metadata, hpatch]
  · intro k hargs hpatch
    subst hargs
    simp [NewMetadataField.metadata, hpatch]
  · intro hlen
    match args with
    | [] => rfl
    | [k] => exact absurd rfl hlen
    | a :: b :: t => rfl

/-- Witness for `metadata_override_spec`: a patched single-key call returns
the override, a two-key call delegates. -/
theorem metadata_override_spec_witness :
    NewMetadataField.metadata [("param", "z")] ["param"] [] = .patched "z" ∧
    NewMetadataField.metadata [("param", "z")] ["param", "levtype"] []
      = .delegated ["param", "levtype"] [] :=
  ⟨(metadata_override_spec [("param", "z")] ["param"] []).1 "param" "z" rfl rfl,
   (metadata_override_spec [("param", "z")] ["param", "levtype"] []).2.2 (by decide)⟩

/-- Counterexample for claim C10 as stated: a call with one positional
patched key and a keyword argument does not delegate to the inner field —
the override still applies. -/
theorem metadata_kwargs_counterexample :
    NewMetadataField.metadata [("param", "z")] ["param"] [("astype", "str")]
      = .patched "z" ∧
    NewMetadataField.metadata [("param", "z")] ["param"] [("astype", "str")]
      ≠ .delegated ["param"] [("astype", "str")] := by
  exact ⟨rfl, by decide⟩

/-! ## Hindcast relabeling (outputs/`__init__`.py lines 110-156) -/

/-- The `HindcastReLabel` wrapper configuration (lines 111-116); the
constructor asserts at least one of the two fields is set. -/
structure HindcastReLabel where
  hindcast_reference_year : Option Int
  hindcast_reference_date : Option Int
  deriving Repr, DecidableEq

/-- The write keyword arguments relevant to relabeling: the optional
caller-supplied `date`/`hdate` and the template field's `date`/`hdate`. -/
structure WriteKwargs where
  date : Option Int
  hdate : Option Int
  template_date : Int
  template_hdate : Option Int
  deriving Repr, DecidableEq

/-- The date metadata finally passed to the wrapped output's `write`. -/
structure RelabeledWrite where
  referenceDate : Int
  hdate : Int
  deriving Repr, DecidableEq

/-- The computed reference date: `self.hindcast_reference_date` when set,
else `self.hindcast_reference_year * 10000 + date % 10000` (the reference
year substituted into the template's own date, lines 132-135 and
146-149). -/
def HindcastReLabel.referenceDateOf (h : HindcastReLabel) (date : Int) : Int :=
  match h.hindcast_reference_date with
  | some d => d
  | none => (h.hindcast_reference_year.getD 0) * 10000 + date.emod 10000

/-- `HindcastReLabel.write` (lines 118-156): caller-supplied `date`/`hdate`
are discarded with a warning and the template's values are used; if the
template carries a non-null `hdate`, the template's `date` must equal the
computed `referenceDate` (AssertionError otherwise, line 137) and the
template's `hdate` is kept; otherwise the template's `date` becomes
`hdate` and the computed value becomes `referenceDate`.  Returns the
emitted warnings and either the relabeled metadata or the failure. -/
def HindcastReLabel.write (h : HindcastReLabel) (kwargs : WriteKwargs) :
    List String × Except String RelabeledWrite :=
  let warns :=
    (if kwargs.hdate.isSome then ["Ignoring hdate in HindcastReLabel"] else []) ++
    (if kwargs.date.isSome then ["Ignoring date in HindcastReLabel"] else [])
  let date := kwargs.template_date
  match kwargs.template_hdate with
  | some hd =>
      if date = h.referenceDateOf date then
        (warns, .ok ⟨h.referenceDateOf date, hd⟩)
      else
        (warns, .error "hindcast date mismatch")
  | none =>
      (warns, .ok ⟨h.referenceDateOf date, date⟩)

/-- Claim C7 (confirmed): the hindcast relabeling write discards
caller-supplied `date`/`hdate` with a warning (the outcome equals the one
with them absent); the computed `referenceDate` is the explicit reference
date or the reference year substituted into the template's date; when the
template carries a non-null `hdate` the write succeeds only if the
template's `date` equals the computed `referenceDate` and fails fatally
otherwise; when it does not, the template's `date` becomes `hdate` and the
computed value becomes `referenceDate`. -/
theorem hindcast_write_warns (h : HindcastReLabel) (kwargs : WriteKwargs) :
    (h.write kwargs).1 =
      (if kwargs.hdate.isSome then ["Ignoring hdate in HindcastReLabel"] else []) ++
      (if kwargs.date.isSome then ["Ignoring date in HindcastReLabel"] else []) := by
  cases hth : kwargs.template_hdate with
  | none => simp [HindcastReLabel.write, hth]
  | some hd =>
      unfold HindcastReLabel.write
      rw [hth]
      rw [apply_ite Prod.fst]
      simp

theorem hindcast_write_result (h : HindcastReLabel) (kwargs : WriteKwargs) :
    (h.write kwargs).2 =
      match kwargs.template_hdate with
      | some hd =>
          if kwargs.template_date = h.referenceDateOf kwargs.template_date then
            .ok ⟨h.referenceDateOf kwargs.template_date, hd⟩
          else .error "hindcast date mismatch"
      | none => .ok ⟨h.referenceDateOf kwargs.template_date, kwargs.template_date⟩ := by
  cases hth : kwargs.template_hdate with
  | none => simp [HindcastReLabel.write, hth]
  | some hd =>
      unfold HindcastReLabel.write
      rw [hth]
      rw [apply_ite Prod.snd]

theorem hindcast_write_spec (h : HindcastReLabel) (kwargs : WriteKwargs) :
    (kwargs.hdate.isSome = true ∨ kwargs.date.isSome = true →
        (h.write kwargs).1 ≠ []) ∧
    ((h.write kwargs).2
        = (h.write ⟨none, none, kwargs.template_date, kwargs.template_hdate⟩).2) ∧
    (∀ d, h.hindcast_reference_date = some d →
        h.referenceDateOf kwargs.template_date = d) ∧
    (∀ y, h.hindcast_reference_date = none → h.hindcast_reference_year = some y →
        h.referenceDateOf kwargs.template_date
          = y * 10000 + kwargs.template_date.emod 10000) ∧
    (∀ hd, kwargs.template_hdate = some hd →
        kwargs.template_date = h.referenceDateOf kwargs.template_date →
        (h.write kwargs).2 = .ok ⟨h.referenceDateOf kwargs.template_date, hd⟩) ∧
    (∀ hd, kwargs.template_hdate = some hd →
        kwargs.template_date ≠ h.referenceDateOf kwargs.template_date →
        ∃ msg, (h.write kwargs).2 = .error msg) ∧
    (kwargs.template_hdate = none →
        (h.write kwargs).2 = .ok ⟨h.referenceDateOf kwargs.template_date,
                                  kwargs.template_date⟩) := by
  refine ⟨?_, ?_, ?_, ?_, ?_, ?_, ?_⟩
  · intro hcaller
    rw [hindcast_write_warns]
    rcases hcaller with hh | hd
    · simp [hh]
    · simp [hd]
  · rw [hindcast_write_result, hindcast_write_result]
  · intro d hd
    simp [HindcastReLabel.referenceDateOf, hd]
  · intro y hnone hy
    simp [HindcastReLabel.referenceDateOf, hnone, hy]
  · intro hd hthd heq
    rw [hindcast_write_result, hthd]
    exact if_pos heq
  · intro hd hthd hne
    refine ⟨"hindcast date mismatch", ?_⟩
    rw [hindcast_write_result, hthd]
    exact if_neg hne
  · intro hthd
    rw [hindcast_write_result, hthd]

/-- Witness for `hindcast_write_spec`: reference year 2020 on a template
dated 2023-03-05 with no template `hdate` and a caller-supplied `date`
relabels to `referenceDate = 20200305`, `hdate = 20230305`, with a
warning. -/
theorem hindcast_write_spec_witness :
    (HindcastReLabel.write ⟨some 2020, none⟩ ⟨some 99, none, 20230305, none⟩).2
        = .ok ⟨HindcastReLabel.referenceDateOf ⟨some 2020, none⟩ 20230305, 20230305⟩ ∧
    (HindcastReLabel.write ⟨some 2020, none⟩ ⟨some 99, none, 20230305, none⟩).1 ≠ [] :=
  ⟨(hindcast_write_spec ⟨some 2020, none⟩ ⟨some 99, none, 20230305, none⟩).2.2.2.2.2.2 rfl,
   (hindcast_write_spec ⟨some 2020, none⟩ ⟨some 99, none, 20230305, none⟩).1 (Or.inr rfl)⟩

/-! ## Remote poll loop (remote/api.py lines 84-124) -/

/-- A server poll response as returned by `_request` (status already
lower-cased there, api.py lines 168-169). -/
structure PollResponse where
  status : String
  href : String
  deriving Repr, DecidableEq

/-- How the poll loop ends. -/
inductive PollOutcome where
  | downloaded (href : String)
  | failedExit
  | exhausted
  deriving Repr, DecidableEq

/-- The observable trace of a poll-loop run: statuses logged on change
(api.py lines 102-104), download calls (line 124), final outcome. -/
structure PollTrace where
  statusChanges : List String
  downloads : List String
  outcome : PollOutcome
  deriving Repr, DecidableEq

/-- The `while True` poll loop of `RemoteAPI.run` (api.py lines 87-124)
over a scripted sequence of server responses, starting from `last_status`
(`"queued"` after submission, line 84): a `ready` response breaks the loop
and the file at that response's href is downloaded (line 124); a `failed`
response exits fatally without downloading (lines 96-100); otherwise a
status-change log event fires exactly when the reported status differs
from the previously seen one (lines 102-104).  A scripted sequence that
runs out before a terminal status leaves the loop pending
(`exhausted`). -/
def pollLoop (last : String) : List PollResponse → PollTrace
  | [] => ⟨[], [], .exhausted⟩
  | r :: rest =>
      if r.status = "ready" then ⟨[], [r.href], .downloaded r.href⟩
      else if r.status = "failed" then ⟨[], [], .failedExit⟩
      else if r.status ≠ last then
        ⟨r.status :: (pollLoop r.status rest).statusChanges,
         (pollLoop r.status rest).downloads,
         (pollLoop r.status rest).outcome⟩
      else
        pollLoop last rest

/-- The first terminal (`ready` or `failed`) response of a script. -/
def firstTerminal : List PollResponse → Option PollResponse
  | [] => none
  | r :: rest =>
      if r.status = "ready" ∨ r.status = "failed" then some r
      else firstTerminal rest

/-- The statuses of the responses consumed before the terminal one. -/
def nonTerminalStatuses : List PollResponse → List String
  | [] => []
  | r :: rest =>
      if r.status = "ready" ∨ r.status = "failed" then []
      else r.status :: nonTerminalStatuses rest

/-- Claim C8 (confirmed): for every scripted sequence of poll responses,
a first terminal `ready` response yields exactly one download, at that
final response's href, and the loop terminates; a first terminal `failed`
response terminates the run fatally with no download ever attempted; and
the sequence of status-change log events is exactly the adjacent-distinct
compression (destutter) of the non-terminal statuses seeded with the
previously seen status — events fire exactly on transitions, never on
repeated identical statuses. -/
theorem remote_poll_loop_spec (last : String) (rs : List PollResponse) :
    (match firstTerminal rs with
     | some r =>
         if r.status = "ready" then
           (pollLoop last rs).outcome = .downloaded r.href ∧
           (pollLoop last rs).downloads = [r.href]
         else
           (pollLoop last rs).outcome = .failedExit ∧
           (pollLoop last rs).downloads = []
     | none =>
         (pollLoop last rs).outcome = .exhausted ∧
         (pollLoop last rs).downloads = []) ∧
    last :: (pollLoop last rs).statusChanges
      = (nonTerminalStatuses rs).destutter' (· ≠ ·) last := by
  induction rs generalizing last with
  | nil =>
      exact ⟨⟨rfl, rfl⟩, rfl⟩
  | cons r rest ih =>
      by_cases hr : r.status = "ready"
      · refine ⟨?_, ?_⟩
        · simp only [firstTerminal, if_pos (Or.inl hr)]
          simp [pollLoop, hr]
        · simp [pollLoop, nonTerminalStatuses, hr]
      · by_cases hf : r.status = "failed"
        · refine ⟨?_, ?_⟩
          · simp only [firstTerminal, if_pos (Or.inr hf)]
            simp [pollLoop, hr, hf]
          · simp [pollLoop, nonTerminalStatuses, hr, hf]
        · have hterm : ¬(r.status = "ready" ∨ r.status = "failed") := by
            rintro (h | h)
            exacts [hr h, hf h]
          by_cases hne : r.status ≠ last
          · refine ⟨?_, ?_⟩
            · simp only [firstTerminal, if_neg hterm]
              have h1 : pollLoop last (r :: rest)
                  = ⟨r.status :: (pollLoop r.status rest).statusChanges,
                     (pollLoop r.status rest).downloads,
                     (pollLoop r.status rest).outcome⟩ := by
                simp [pollLoop, hr, hf, hne]
              rw [h1]
              have := (ih r.status).1
              revert this
              cases firstTerminal rest with
              | none => exact fun h => h
              | some r₀ =>
                  by_cases hr₀ : r₀.status = "ready" <;> simp [hr₀]
            · have h1 : pollLoop last (r :: rest)
                  = ⟨r.status :: (pollLoop r.status rest).statusChanges,
                     (pollLoop r.status rest).downloads,
                     (pollLoop r.status rest).outcome⟩ := by
                simp [pollLoop, hr, hf, hne]
              rw [h1]
              have h2 : nonTerminalStatuses (r :: rest)
                  = r.status :: nonTerminalStatuses rest := by
                simp [nonTerminalStatuses, hterm]
              rw [h2, List.destutter'_cons_pos _ (Ne.symm hne)]
              exact congrArg (last :: ·) (ih r.status).2
          · push_neg at hne
            have h1 : pollLoop last (r :: rest) = pollLoop last rest := by
              simp only [pollLoop, if_neg hr, if_neg hf]
              rw [if_neg (by simp [hne])]
            refine ⟨?_, ?_⟩
            · simp only [firstTerminal, if_neg hterm]
              rw [h1]
              exact (ih last).1
            · have h2 : nonTerminalStatuses (r :: rest)
                  = r.status :: nonTerminalStatuses rest := by
                simp [nonTerminalStatuses, hterm]
              rw [h1, h2, hne, List.destutter'_cons_neg _ (by simp)]
              exact (ih last).2

/-! ## Request builder (`Model._requests_unfiltered`, model.py lines 364-404)

Python dicts are modelled as ordered association lists with `update`
(assign each key in turn: replace in place or append) and `pop`.  The
request values are the scalars and lists appearing in the requests. -/

/-- A request value: a string, an integer, a list of levels or a list of
parameter names. -/
inductive RVal where
  | s (v : String)
  | n (v : Int)
  | ns (v : List Int)
  | ss (v : List String)
  deriving Repr, DecidableEq

/-- A retrieval request: an ordered Python dict. -/
abbrev Req : Type := List (String × RVal)

/-- `d[k] = v`: replace the binding in place or append it. -/
def dictSet : Req → String → RVal → Req
  | [], k, v => [(k, v)]
  | p :: t, k, v => if p.1 = k then (k, v) :: t else p :: dictSet t k v

/-- `d.update(e)`: assign every binding of `e` in order. -/
def dictUpdate (d e : Req) : Req :=
  e.foldl (fun acc kv => dictSet acc kv.1 kv.2) d

/-- `d.pop(k, None)`: drop the binding of `k`. -/
def dictPop : Req → String → Req
  | [], _ => []
  | p :: t, k => if p.1 = k then dictPop t k else p :: dictPop t k

/-- `k in d`. -/
def hasKey : Req → String → Bool
  | [], _ => false
  | p :: t, k => if p.1 = k then true else hasKey t k

/-- `d[k]` as an option. -/
def dGet : Req → String → Option RVal
  | [], _ => none
  | p :: t, k => if p.1 = k then some p.2 else dGet t k

theorem hasKey_dictSet (d : Req) (k : String) (v : RVal) (k' : String) :
    hasKey (dictSet d k v) k' = (hasKey d k' || k == k') := by
  induction d with
  | nil => by_cases h : k = k' <;> simp [dictSet, hasKey, h]
  | cons p t ih =>
      by_cases hp : p.1 = k
      · by_cases hk : k = k' <;> simp [dictSet, hasKey, hp, hk]
      · by_cases hpk : p.1 = k'
        · have hk : ¬ k' = k := fun hh => hp (hpk.trans hh)
          simp [dictSet, hasKey, hp, hpk, hk]
        · simp [dictSet, hasKey, hp, hpk, ih]

theorem dGet_dictSet_self (d : Req) (k : String) (v : RVal) :
    dGet (dictSet d k v) k = some v := by
  induction d with
  | nil => simp [dictSet, dGet]
  | cons p t ih =>
      by_cases hp : p.1 = k <;> simp [dictSet, dGet, hp, ih]

theorem dGet_dictSet_ne (d : Req) (k : String) (v : RVal) (k' : String) (h : k' ≠ k) :
    dGet (dictSet d k v) k' = dGet d k' := by
  have h2 : ¬ k = k' := Ne.symm h
  induction d with
  | nil => simp [dictSet, dGet, h2]
  | cons p t ih =>
      by_cases hp : p.1 = k
      · have hpk : ¬ p.1 = k' := by
          rw [hp]
          exact h2
        simp [dictSet, dGet, hp, hpk, h2]
      · by_cases hpk : p.1 = k' <;> simp [dictSet, dGet, hp, hpk, h, h2, ih]

theorem hasKey_dictUpdate (d e : Req) (k : String) :
    hasKey (dictUpdate d e) k = (hasKey d k || e.any fun p => p.1 == k) := by
  induction e generalizing d with
  | nil => simp [dictUpdate]
  | cons p t ih =>
      simp only [dictUpdate, List.foldl_cons, List.any_cons] at ih ⊢
      rw [ih (dictSet d p.1 p.2), hasKey_dictSet]
      cases hasKey d k <;> cases hc : p.1 == k <;> simp [hc]

theorem dGet_dictUpdate_not_mem (d e : Req) (k : String)
    (h : (e.any fun p => p.1 == k) = false) :
    dGet (dictUpdate d e) k = dGet d k := by
  induction e generalizing d with
  | nil => simp [dictUpdate]
  | cons p t ih =>
      simp only [List.any_cons, Bool.or_eq_false_iff] at h
      simp only [dictUpdate, List.foldl_cons] at ih ⊢
      rw [ih (dictSet d p.1 p.2) h.2, dGet_dictSet_ne]
      intro hk
      rw [hk] at h
      simp at h

theorem hasKey_dictPop_self (d : Req) (k : String) :
    hasKey (dictPop d k) k = false := by
  induction d with
  | nil => rfl
  | cons p t ih => by_cases hp : p.1 = k <;> simp [dictPop, hasKey, hp, ih]

theorem hasKey_dictPop (d : Req) (k k' : String) :
    hasKey (dictPop d k) k' = (hasKey d k' && !(k' == k)) := by
  by_cases hk : k' = k
  · subst hk
    simp [hasKey_dictPop_self]
  · induction d with
    | nil => simp [dictPop, hasKey]
    | cons p t ih =>
        by_cases hp : p.1 = k
        · have hk2 : ¬ k = k' := fun hh => hk hh.symm
          have hpk : ¬ p.1 = k' := by
            rw [hp]
            exact hk2
          simp [dictPop, hasKey, hp, hpk, hk, hk2, ih]
        · by_cases hpk : p.1 = k' <;> simp [dictPop, hasKey, hp, hpk, hk, ih]

theorem dGet_dictPop_ne (d : Req) (k k' : String) (h : k' ≠ k) :
    dGet (dictPop d k) k' = dGet d k' := by
  have h2 : ¬ k = k' := Ne.symm h
  induction d with
  | nil => simp [dictPop]
  | cons p t ih =>
      by_cases hp : p.1 = k
      · have hpk : ¬ p.1 = k' := by
          rw [hp]
          exact h2
        simp [dictPop, dGet, hp, hpk, h, h2, ih]
      · by_cases hpk : p.1 = k' <;> simp [dictPop, dGet, hp, hpk, h, h2, ih]

theorem hasKey_eq_any (d : Req) (k : String) :
    hasKey d k = d.any fun p => p.1 == k := by
  induction d with
  | nil => rfl
  | cons p t ih => by_cases hp : p.1 = k <;> simp [hasKey, hp, ih]

/-- The configuration consumed by `Model._requests_unfiltered`: the grid
and area, the owner's `retrieve` overrides (model.py line 63), the parsed
`requests_extra` (lines 346-352), the pressure-level params and levels,
the surface params, and the expanded `(date, time)` pairs returned by
`self.datetimes()`. -/
structure RequestsConfig where
  grid : RVal
  area : RVal
  retrieve : Req
  requests_extra : Req
  param_pl : List String
  level_pl : List Int
  param_sfc : List String
  datetimes : List (Int × Int)

/-- The shared keys: `target`, `grid`, `area` plus the `retrieve`
override keys — exactly the keys of `first` (model.py lines 367-372). -/
def sharedKeys (cfg : RequestsConfig) : List String :=
  ["target", "grid", "area"] ++ cfg.retrieve.map Prod.fst

/-- The keys every per-iteration request starts with (lines 377-383). -/
def baseKeys : List String := ["levtype", "levelist", "param", "date", "time"]

/-- `first` (model.py lines 367-372). -/
def firstDict (cfg : RequestsConfig) : Req :=
  dictUpdate [("target", .s "input.grib"), ("grid", cfg.grid), ("area", cfg.area)]
    cfg.retrieve

/-- The fresh per-iteration dict `r` (model.py lines 377-383). -/
def basePl (cfg : RequestsConfig) (date time : Int) : Req :=
  [("levtype", .s "pl"), ("levelist", .ns cfg.level_pl), ("param", .ss cfg.param_pl),
   ("date", .n date), ("time", .n time)]

/-- The pressure-level request appended for one `(date, time)` pair:
`r.update(first); r.update(self._requests_extra)` (lines 384-391).  The
`patch_retrieve_request` hook is the base-class no-op (lines 455-457). -/
def reqPl (cfg : RequestsConfig) (first : Req) (date time : Int) : Req :=
  dictUpdate (dictUpdate (basePl cfg date time) first) cfg.requests_extra

/-- The surface request appended next: the same dict updated with
`levtype="sfc"` and `param=param_sfc`, with `levelist` popped
(lines 393-402). -/
def reqSfc (cfg : RequestsConfig) (first : Req) (date time : Int) : Req :=
  dictPop (dictUpdate (reqPl cfg first date time)
    [("levtype", .s "sfc"), ("param", .ss cfg.param_sfc)]) "levelist"

/-- The loop of `Model._requests_unfiltered` (lines 374-402), threading
`first`, which is reset to the empty dict after the first iteration
(`first = {}`, line 385). -/
def requestsLoop (cfg : RequestsConfig) : List (Int × Int) → Req → List Req
  | [], _ => []
  | (date, time) :: rest, first =>
      reqPl cfg first date time :: reqSfc cfg first date time ::
        requestsLoop cfg rest []

/-- `Model._requests_unfiltered` (model.py lines 364-404). -/
def Model.requestsUnfiltered (cfg : RequestsConfig) : List Req :=
  requestsLoop cfg cfg.datetimes (firstDict cfg)

theorem hasKey_basePl (cfg : RequestsConfig) (d t : Int) (k : String) :
    hasKey (basePl cfg d t) k = true ↔ k ∈ baseKeys := by
  rw [hasKey_eq_any, List.any_eq_true]
  simp only [basePl, baseKeys, List.mem_cons, List.not_mem_nil, or_false, beq_iff_eq]
  constructor
  · rintro ⟨p, hp, hpk⟩
    rcases hp with h | h | h | h | h <;> subst h <;> simp at hpk ⊢ <;> simp [← hpk]
  · rintro (h | h | h | h | h) <;> subst h
    · exact ⟨("levtype", .s "pl"), by simp⟩
    · exact ⟨("levelist", .ns cfg.level_pl), by simp⟩
    · exact ⟨("param", .ss cfg.param_pl), by simp⟩
    · exact ⟨("date", .n d), by simp⟩
    · exact ⟨("time", .n t), by simp⟩

theorem hasKey_firstDict (cfg : RequestsConfig) (k : String) :
    hasKey (firstDict cfg) k = true ↔ k ∈ sharedKeys cfg := by
  rw [firstDict, hasKey_dictUpdate]
  simp only [Bool.or_eq_true, hasKey_eq_any, List.any_eq_true, beq_iff_eq]
  simp only [sharedKeys, List.mem_append, List.mem_cons, List.not_mem_nil, or_false,
    List.mem_map]
  constructor
  · rintro (⟨p, hp, hpk⟩ | ⟨p, hp, hpk⟩)
    · rcases hp with h | h | h <;> subst h <;> simp at hpk ⊢ <;> simp [← hpk]
    · exact Or.inr ⟨p, hp, hpk⟩
  · rintro ((h | h | h) | ⟨p, hp, hpk⟩)
    · exact Or.inl ⟨("target", .s "input.grib"), by simp, by simp [h]⟩
    · exact Or.inl ⟨("grid", cfg.grid), by simp, by simp [h]⟩
    · exact Or.inl ⟨("area", cfg.area), by simp, by simp [h]⟩
    · exact Or.inr ⟨p, hp, hpk⟩

theorem dictUpdate_cons (d : Req) (p : String × RVal) (t : Req) :
    dictUpdate d (p :: t) = dictUpdate (dictSet d p.1 p.2) t := rfl

theorem extra_any_false (cfg : RequestsConfig)
    (h2 : ∀ p ∈ cfg.requests_extra, ¬ p.1 ∈ baseKeys ∧ ¬ p.1 ∈ sharedKeys cfg)
    (k : String) (hk : k ∈ baseKeys ∨ k ∈ sharedKeys cfg) :
    (cfg.requests_extra.any fun p => p.1 == k) = false := by
  rw [List.any_eq_false]
  intro p hp
  simp only [beq_iff_eq]
  intro hpk
  rcases hk with hk | hk
  · exact (h2 p hp).1 (hpk ▸ hk)
  · exact (h2 p hp).2 (hpk ▸ hk)

theorem dGet_reqPl_base (cfg : RequestsConfig) (first : Req) (d t : Int) (k : String)
    (hf : hasKey first k = false)
    (hex : (cfg.requests_extra.any fun p => p.1 == k) = false) :
    dGet (reqPl cfg first d t) k = dGet (basePl cfg d t) k := by
  rw [reqPl, dGet_dictUpdate_not_mem _ _ _ hex,
    dGet_dictUpdate_not_mem _ _ _ (by rw [← hasKey_eq_any]; exact hf)]

theorem hasKey_reqPl (cfg : RequestsConfig) (first : Req) (d t : Int) (k : String)
    (hbase : ¬ k ∈ baseKeys)
    (hex : (cfg.requests_extra.any fun p => p.1 == k) = false) :
    hasKey (reqPl cfg first d t) k = hasKey first k := by
  rw [reqPl, hasKey_dictUpdate, hasKey_dictUpdate, hex]
  have hb : hasKey (basePl cfg d t) k = false := by
    cases hv : hasKey (basePl cfg d t) k
    · rfl
    · exact absurd ((hasKey_basePl cfg d t k).mp hv) hbase
  rw [hb, ← hasKey_eq_any]
  simp

theorem dGet_reqSfc_levtype (cfg : RequestsConfig) (first : Req) (d t : Int) :
    dGet (reqSfc cfg first d t) "levtype" = some (.s "sfc") := by
  rw [reqSfc, dGet_dictPop_ne _ _ _ (by decide), dictUpdate_cons, dictUpdate_cons]
  rw [show dictUpdate (dictSet (dictSet (reqPl cfg first d t) "levtype" (.s "sfc"))
      "param" (.ss cfg.param_sfc)) [] = dictSet (dictSet (reqPl cfg first d t) "levtype"
      (.s "sfc")) "param" (.ss cfg.param_sfc) from rfl]
  rw [dGet_dictSet_ne _ _ _ _ (by decide), dGet_dictSet_self]

theorem hasKey_reqSfc_levelist (cfg : RequestsConfig) (first : Req) (d t : Int) :
    hasKey (reqSfc cfg first d t) "levelist" = false := by
  rw [reqSfc]
  exact hasKey_dictPop_self _ _

theorem dGet_reqSfc_of_ne (cfg : RequestsConfig) (first : Req) (d t : Int) (k : String)
    (hlv : k ≠ "levelist") (hlt : k ≠ "levtype") (hpm : k ≠ "param") :
    dGet (reqSfc cfg first d t) k = dGet (reqPl cfg first d t) k := by
  rw [reqSfc, dGet_dictPop_ne _ _ _ hlv, dictUpdate_cons, dictUpdate_cons]
  rw [show dictUpdate (dictSet (dictSet (reqPl cfg first d t) "levtype" (.s "sfc"))
      "param" (.ss cfg.param_sfc)) [] = dictSet (dictSet (reqPl cfg first d t) "levtype"
      (.s "sfc")) "param" (.ss cfg.param_sfc) from rfl]
  rw [dGet_dictSet_ne _ _ _ _ hpm, dGet_dictSet_ne _ _ _ _ hlt]

theorem hasKey_reqSfc_of_ne (cfg : RequestsConfig) (first : Req) (d t : Int) (k : String)
    (hlv : k ≠ "levelist") (hlt : k ≠ "levtype") (hpm : k ≠ "param") :
    hasKey (reqSfc cfg first d t) k = hasKey (reqPl cfg first d t) k := by
  rw [reqSfc, hasKey_dictPop, dictUpdate_cons, dictUpdate_cons]
  rw [show dictUpdate (dictSet (dictSet (reqPl cfg first d t) "levtype" (.s "sfc"))
      "param" (.ss cfg.param_sfc)) [] = dictSet (dictSet (reqPl cfg first d t) "levtype"
      (.s "sfc")) "param" (.ss cfg.param_sfc) from rfl]
  rw [hasKey_dictSet, hasKey_dictSet]
  have e1 : ("levtype" == k) = false := by
    simp
    exact fun hh => hlt hh.symm
  have e2 : ("param" == k) = false := by
    simp
    exact fun hh => hpm hh.symm
  have e3 : (k == "levelist") = false := by
    simp [hlv]
  rw [e1, e2, e3]
  simp

theorem dGet_basePl_date (cfg : RequestsConfig) (d t : Int) :
    dGet (basePl cfg d t) "date" = some (.n d) := rfl

theorem dGet_basePl_time (cfg : RequestsConfig) (d t : Int) :
    dGet (basePl cfg d t) "time" = some (.n t) := rfl

theorem dGet_basePl_levtype (cfg : RequestsConfig) (d t : Int) :
    dGet (basePl cfg d t) "levtype" = some (.s "pl") := rfl

theorem dGet_basePl_levelist (cfg : RequestsConfig) (d t : Int) :
    dGet (basePl cfg d t) "levelist" = some (.ns cfg.level_pl) := rfl

/-- Behaviour of the loop of `Model._requests_unfiltered`: when the shared
keys avoid the per-request base keys and the `requests_extra` keys avoid
both, a run whose incoming `first` dict holds exactly the shared keys when
`flag` is true (and nothing when `flag` is false) emits two requests per
`(date, time)` pair — a pressure-level one with `levelist` then a surface
one without — each carrying its pair's date and time, and the shared keys
appear exactly in the first two requests of a flagged run. -/
theorem requestsLoop_spec (cfg : RequestsConfig)
    (h1 : ∀ k ∈ sharedKeys cfg, ¬ k ∈ baseKeys)
    (h2 : ∀ p ∈ cfg.requests_extra, ¬ p.1 ∈ baseKeys ∧ ¬ p.1 ∈ sharedKeys cfg) :
    ∀ (dts : List (Int × Int)) (flag : Bool) (first : Req),
      (∀ k, hasKey first k = true ↔ (k ∈ sharedKeys cfg ∧ flag = true)) →
      (requestsLoop cfg dts first).length = 2 * dts.length ∧
      (∀ i (hi : i < (requestsLoop cfg dts first).length),
        (∀ k ∈ sharedKeys cfg,
          hasKey ((requestsLoop cfg dts first).get ⟨i, hi⟩) k = true
            ↔ (i < 2 ∧ flag = true)) ∧
        (∃ dt, dts[i / 2]? = some dt ∧
          dGet ((requestsLoop cfg dts first).get ⟨i, hi⟩) "date" = some (.n dt.1) ∧
          dGet ((requestsLoop cfg dts first).get ⟨i, hi⟩) "time" = some (.n dt.2)) ∧
        (i % 2 = 0 →
          dGet ((requestsLoop cfg dts first).get ⟨i, hi⟩) "levtype" = some (.s "pl") ∧
          dGet ((requestsLoop cfg dts first).get ⟨i, hi⟩) "levelist"
              = some (.ns cfg.level_pl)) ∧
        (i % 2 = 1 →
          dGet ((requestsLoop cfg dts first).get ⟨i, hi⟩) "levtype" = some (.s "sfc") ∧
          hasKey ((requestsLoop cfg dts first).get ⟨i, hi⟩) "levelist" = false)) := by
  intro dts
  induction dts with
  | nil =>
      intro flag first hfs
      refine ⟨rfl, ?_⟩
      intro i hi
      simp [requestsLoop] at hi
  | cons dt rest ih =>
      obtain ⟨d, t⟩ := dt
      intro flag first hfs
      have hfb : ∀ k ∈ baseKeys, hasKey first k = false := by
        intro k hk
        cases hv : hasKey first k
        · rfl
        · exact absurd hk (h1 k ((hfs k).mp hv).1)
      have hbare : ∀ k, hasKey ([] : Req) k = true ↔ (k ∈ sharedKeys cfg ∧ false = true) := by
        intro k
        simp [hasKey]
      have hrec := ih false [] hbare
      have hlen : (requestsLoop cfg ((d, t) :: rest) first).length
          = (requestsLoop cfg rest []).length + 2 := rfl
      constructor
      · rw [hlen, hrec.1]
        simp only [List.length_cons]
        ring
      · intro i hi
        cases i with
        | zero =>
            have hget : (requestsLoop cfg ((d, t) :: rest) first).get ⟨0, hi⟩
                = reqPl cfg first d t := rfl
            rw [hget]
            refine ⟨?_, ?_, ?_, ?_⟩
            · intro k hk
              rw [hasKey_reqPl cfg first d t k (h1 k hk)
                (extra_any_false cfg h2 k (Or.inr hk)), hfs k]
              simp [hk]
            · refine ⟨(d, t), by simp, ?_, ?_⟩
              · rw [dGet_reqPl_base cfg first d t "date" (hfb "date" (by decide))
                  (extra_any_false cfg h2 "date" (Or.inl (by decide))),
                  dGet_basePl_date]
              · rw [dGet_reqPl_base cfg first d t "time" (hfb "time" (by decide))
                  (extra_any_false cfg h2 "time" (Or.inl (by decide))),
                  dGet_basePl_time]
            · intro _
              constructor
              · rw [dGet_reqPl_base cfg first d t "levtype" (hfb "levtype" (by decide))
                  (extra_any_false cfg h2 "levtype" (Or.inl (by decide))),
                  dGet_basePl_levtype]
              · rw [dGet_reqPl_base cfg first d t "levelist" (hfb "levelist" (by decide))
                  (extra_any_false cfg h2 "levelist" (Or.inl (by decide))),
                  dGet_basePl_levelist]
            · intro hodd
              simp at hodd
        | succ i' =>
            cases i' with
            | zero =>
                have hget : (requestsLoop cfg ((d, t) :: rest) first).get ⟨1, hi⟩
                    = reqSfc cfg first d t := rfl
                rw [hget]
                refine ⟨?_, ?_, ?_, ?_⟩
                · intro k hk
                  have hnb := h1 k hk
                  have hlv : k ≠ "levelist" := by
                    intro hh
                    exact hnb (by rw [hh]; decide)
                  have hlt : k ≠ "levtype" := by
                    intro hh
                    exact hnb (by rw [hh]; decide)
                  have hpm : k ≠ "param" := by
                    intro hh
                    exact hnb (by rw [hh]; decide)
                  rw [hasKey_reqSfc_of_ne cfg first d t k hlv hlt hpm,
                    hasKey_reqPl cfg first d t k hnb
                      (extra_any_false cfg h2 k (Or.inr hk)), hfs k]
                  simp [hk]
                · refine ⟨(d, t), by simp, ?_, ?_⟩
                  · rw [dGet_reqSfc_of_ne cfg first d t "date" (by decide) (by decide)
                      (by decide),
                      dGet_reqPl_base cfg first d t "date" (hfb "date" (by decide))
                        (extra_any_false cfg h2 "date" (Or.inl (by decide))),
                      dGet_basePl_date]
                  · rw [dGet_reqSfc_of_ne cfg first d t "time" (by decide) (by decide)
                      (by decide),
                      dGet_reqPl_base cfg first d t "time" (hfb "time" (by decide))
                        (extra_any_false cfg h2 "time" (Or.inl (by decide))),
                      dGet_basePl_time]
                · intro heven
                  simp at heven
                · intro _
                  exact ⟨dGet_reqSfc_levtype cfg first d t,
                    hasKey_reqSfc_levelist cfg first d t⟩
            | succ n =>
                have hn : n < (requestsLoop cfg rest []).length := by
                  rw [hlen] at hi
                  omega
                have hget : (requestsLoop cfg ((d, t) :: rest) first).get ⟨n + 2, hi⟩
                    = (requestsLoop cfg rest []).get ⟨n, hn⟩ := rfl
                rw [hget]
                have hparts := hrec.2 n hn
                refine ⟨?_, ?_, ?_, ?_⟩
                · intro k hk
                  have h := (hparts.1 k hk)
                  constructor
                  · intro hx
                    have := h.mp hx
                    simp at this
                  · intro hx
                    exact absurd hx.1 (by omega)
                · obtain ⟨dt0, hdt0, hdate, htime⟩ := hparts.2.1
                  refine ⟨dt0, ?_, hdate, htime⟩
                  rw [show (n + 2) / 2 = n / 2 + 1 by omega]
                  simpa using hdt0
                · intro heven
                  exact hparts.2.2.1 (by omega)
                · intro hodd
                  exact hparts.2.2.2 (by omega)

/-- Claim C3 (amended): in the unfiltered request sequence, the shared keys
(`target`, `grid`, `area`, plus the retrieve-extra overrides) are carried
by exactly the first two emitted requests — the pressure-level and surface
requests of the first `(date, time)` pair, which are built from the same
dict before `first` is cleared — and omitted from every later request; for
each `(date, time)` pair two requests are emitted, a pressure-level one
with `levelist` and a surface one without, each carrying its pair's date
and time. -/
theorem requests_unfiltered_spec (cfg : RequestsConfig)
    (h1 : ∀ k ∈ sharedKeys cfg, ¬ k ∈ baseKeys)
    (h2 : ∀ p ∈ cfg.requests_extra, ¬ p.1 ∈ baseKeys ∧ ¬ p.1 ∈ sharedKeys cfg) :
    (Model.requestsUnfiltered cfg).length = 2 * cfg.datetimes.length ∧
    (∀ i (hi : i < (Model.requestsUnfiltered cfg).length),
      (∀ k ∈ sharedKeys cfg,
        hasKey ((Model.requestsUnfiltered cfg).get ⟨i, hi⟩) k = true ↔ i < 2) ∧
      (∃ dt, cfg.datetimes[i / 2]? = some dt ∧
        dGet ((Model.requestsUnfiltered cfg).get ⟨i, hi⟩) "date" = some (.n dt.1) ∧
        dGet ((Model.requestsUnfiltered cfg).get ⟨i, hi⟩) "time" = some (.n dt.2)) ∧
      (i % 2 = 0 →
        dGet ((Model.requestsUnfiltered cfg).get ⟨i, hi⟩) "levtype" = some (.s "pl") ∧
        dGet ((Model.requestsUnfiltered cfg).get ⟨i, hi⟩) "levelist"
            = some (.ns cfg.level_pl)) ∧
      (i % 2 = 1 →
        dGet ((Model.requestsUnfiltered cfg).get ⟨i, hi⟩) "levtype" = some (.s "sfc") ∧
        hasKey ((Model.requestsUnfiltered cfg).get ⟨i, hi⟩) "levelist" = false)) := by
  have hfs : ∀ k, hasKey (firstDict cfg) k = true
      ↔ (k ∈ sharedKeys cfg ∧ true = true) := by
    intro k
    rw [hasKey_firstDict]
    simp
  have h := requestsLoop_spec cfg h1 h2 cfg.datetimes true (firstDict cfg) hfs
  refine ⟨h.1, ?_⟩
  intro i hi
  have hp := h.2 i hi
  refine ⟨?_, hp.2.1, hp.2.2.1, hp.2.2.2⟩
  intro k hk
  exact (hp.1 k hk).trans (by simp)

/-- Witness for `requests_unfiltered_spec`: a configuration with two
`(date, time)` pairs yields four requests, the first of which carries the
shared key `target`. -/
theorem requests_unfiltered_spec_witness :
    (Model.requestsUnfiltered
        ⟨.s "g", .s "a", [], [], ["t"], [500], ["2t"],
          [(20230101, 0), (20230102, 0)]⟩).length
      = 2 * ([(20230101, 0), (20230102, 0)] : List (Int × Int)).length ∧
    (hasKey ((Model.requestsUnfiltered
        ⟨.s "g", .s "a", [], [], ["t"], [500], ["2t"],
          [(20230101, 0), (20230102, 0)]⟩).get ⟨0, by decide⟩) "target" = true ↔ 0 < 2) := by
  have h := requests_unfiltered_spec
    ⟨.s "g", .s "a", [], [], ["t"], [500], ["2t"], [(20230101, 0), (20230102, 0)]⟩
    (by decide) (by decide)
  exact ⟨h.1, (h.2 0 (by decide)).1 "target" (by decide)⟩

/-- Counterexample for claim C3 as stated: with two `(date, time)` pairs,
the shared key `target` is carried by the first TWO emitted requests — the
surface request of the first pair is built from the same dict before
`first` is cleared — so it is not true that every request after the first
omits the shared keys. -/
theorem requests_shared_keys_counterexample :
    (Model.requestsUnfiltered
        ⟨.s "g", .s "a", [], [], ["t"], [500], ["2t"],
          [(20230101, 0), (20230102, 0)]⟩).map (fun r => hasKey r "target")
      = [true, true, false, false] := by
  rfl

/-! ## OpenData retrieval check (inputs/opendata.py lines 211-249) -/

/-- The `_` helper inside `OpenDataInput._check` (opendata.py lines
225-227): `if len(p) == 1: return p[0]`; for any other tuple length the
implicit `return None` is taken, modelled as `none`. -/
def underscore (p : List String) : Option String :=
  if p.length = 1 then p.head? else none

/-- `itertools.product` over the per-key request values, the first factor
varying slowest. -/
def listProduct : List (List String) → List (List String)
  | [] => [[]]
  | l :: ls => l.flatMap fun x => (listProduct ls).map fun t => x :: t

/-- A field as seen by the check: its metadata mapping. -/
structure MetaField where
  meta : List (String × String)
  deriving Repr, DecidableEq

/-- `f.metadata(key)`. -/
def MetaField.metadata (f : MetaField) (k : String) : String :=
  ((f.meta.find? fun p => p.1 == k).map Prod.snd).getD ""

/-- The `ValueError`s raised by `OpenDataInput._check` (opendata.py lines
239-249), in singular and plural form.  The reported entries are the
results of the `_` helper applied to each offending tuple. -/
inductive CheckError where
  | missingOne (what : String) (p : Option String)
  | missingMany (what : String) (ps : List (Option String))
  | extraOne (what : String) (p : Option String)
  | extraMany (what : String) (ps : List (Option String))
  deriving Repr, DecidableEq

/-- `request[key]`. -/
def requestGet (request : List (String × List String)) (k : String) : List String :=
  ((request.find? fun p => p.1 == k).map Prod.snd).getD []

/-- `OpenDataInput._check(ds, what, request, *keys)` together with its
callers `check_pl`/`check_sfc`/`check_ml` (opendata.py lines 211-249):
`expected` is the set of Cartesian-product tuples of the requested values
for `keys`, `found` collects each field's metadata tuple; a non-empty
`missing = expected - found` raises (singular form for exactly one entry,
plural otherwise), then a non-empty `extra = found - expected` raises
likewise, and otherwise `ds` is returned unchanged.  Python's sets are
modelled as first-seen-order deduplicated lists. -/
def OpenDataInput.check (what : String) (request : List (String × List String))
    (keys : List String) (ds : List MetaField) :
    Except CheckError (List MetaField) :=
  let expected := (listProduct (keys.map fun k => requestGet request k)).dedup
  let found := (ds.map fun f => keys.map f.metadata).dedup
  let missing := expected.filter fun p => !(found.contains p)
  match missing.map underscore with
  | [] =>
      let extra := found.filter fun p => !(expected.contains p)
      match extra.map underscore with
      | [] => .ok ds
      | [p] => .error (.extraOne what p)
      | ps => .error (.extraMany what ps)
  | [p] => .error (.missingOne what p)
  | ps => .error (.missingMany what ps)

/-- Claim C2 (code bug): requesting pressure-level params `t`, `u` at
levels 500, 850 and realizing only `(t, 500)` does fail with the plural
missing-combination error — but the message names no missing pair: the `_`
helper returns a value only for 1-tuples, so every missing (param, level)
2-tuple is reported as `None`.  A single-key (surface) check does name the
missing parameter and uses the singular form, and a complete realization
is returned unchanged. -/
theorem opendata_check_missing_names_bug :
    OpenDataInput.check "PL" [("param", ["t", "u"]), ("levelist", ["500", "850"])]
        ["param", "levelist"]
        [⟨[("param", "t"), ("levelist", "500")]⟩]
      = .error (.missingMany "PL" [none, none, none]) ∧
    OpenDataInput.check "SFC" [("param", ["2t", "msl"])] ["param"]
        [⟨[("param", "2t")]⟩]
      = .error (.missingOne "SFC" (some "msl")) ∧
    OpenDataInput.check "PL" [("param", ["t", "u"]), ("levelist", ["500", "850"])]
        ["param", "levelist"]
        [⟨[("param", "t"), ("levelist", "500")]⟩,
         ⟨[("param", "t"), ("levelist", "850")]⟩,
         ⟨[("param", "u"), ("levelist", "500")]⟩,
         ⟨[("param", "u"), ("levelist", "850")]⟩]
      = .ok [⟨[("param", "t"), ("levelist", "500")]⟩,
             ⟨[("param", "t"), ("levelist", "850")]⟩,
             ⟨[("param", "u"), ("levelist", "500")]⟩,
             ⟨[("param", "u"), ("levelist", "850")]⟩] := by
  exact ⟨rfl, rfl, rfl⟩

end AiModels
